import Mathlib

/-!
Verification of the mozsearch query-pipeline core, shallowly embedded from
`tools/src/cmd_pipeline/interface.rs` and
`tools/src/cmd_pipeline/cmd_search_text.rs`.

Rust machine integers are modelled as `Nat` with explicit checks: `u32`/`usize`
addition and subtraction panic on overflow/underflow (debug profile), which we
model by `Option` (`none` = panic); the `as u32` narrowing cast truncates
modulo `2 ^ 32` and never panics.
-/

/-- Largest value representable in a Rust `u32`. -/
def U32MAX : Nat := 2 ^ 32 - 1

/-- Checked `u32` addition: Rust `+` on `u32` panics on overflow. -/
def u32Add (a b : Nat) : Option Nat :=
  if a + b ≤ U32MAX then some (a + b) else none

/-- Checked `u32` subtraction: Rust `-` on `u32` panics on underflow. -/
def u32Sub (a b : Nat) : Option Nat :=
  if b ≤ a then some (a - b) else none

/-- Checked `usize` subtraction: Rust `-` on `usize` panics on underflow. -/
def usizeSub (a b : Nat) : Option Nat :=
  if b ≤ a then some (a - b) else none

/-- Rust `as u32` cast from `usize`: truncates modulo `2 ^ 32`. -/
def usizeAsU32 (a : Nat) : Nat := a % 2 ^ 32

/-- A serde_json `Value` (null, bool, number, string, array, object). -/
inductive Json
  | null
  | bool (b : Bool)
  | num (n : Int)
  | str (s : String)
  | arr (elems : List Json)
  | obj (fields : List (String × Json))

/-- interface.rs `SymbolQuality`.  The source constructor `IdentifierPrefix`
(carrying how many characters matched and how many extra characters follow) is
named `identifierPrefixMatch` here. -/
inductive SymbolQuality
  | explicitSymbol
  | explicitIdentifier
  | exactIdentifier
  | identifierPrefixMatch (matched extra : Nat)

/-- interface.rs `SymbolQuality::numeric_rank`: lower values are higher
quality / closer to what the user typed.  The `2 + extra` of the
`IdentifierPrefix` arm is a `u32` addition in the source, so it is a checked
addition here (`none` = overflow panic). -/
def SymbolQuality.numeric_rank : SymbolQuality → Option Nat
  | .explicitSymbol => some 0
  | .explicitIdentifier => some 1
  | .exactIdentifier => some 2
  | .identifierPrefixMatch _matched extra => u32Add 2 extra

/-- interface.rs `impl Ord for SymbolQuality`: compare the two numeric ranks.
The comparison is defined only when both rank computations complete without
overflow. -/
def SymbolQuality.cmpRank (a b : SymbolQuality) : Option Ordering :=
  match a.numeric_rank, b.numeric_rank with
  | some ra, some rb => some (compare ra rb)
  | _, _ => none

/-- The strict order `q1 < q2` Rust derives from `Ord` (`cmp` returns `Less`,
both rank computations completing). -/
def SymbolQuality.ltRank (a b : SymbolQuality) : Prop :=
  SymbolQuality.cmpRank a b = some Ordering.lt

/-- C6 counterexample: as stated, the claim's "exact-identifier outranks every
prefix match" fails on the program at `extra = 2^32 − 1`: the source's `u32`
computation `2 + extra` overflows (a panic in checked builds, a wrap to rank 1
in release, which would outrank exact-identifier), so exact-identifier does
not outrank that prefix match. -/
theorem c6_symbol_quality_rank_order_counterexample :
    ¬ SymbolQuality.ltRank .exactIdentifier
        (.identifierPrefixMatch 0 (2 ^ 32 - 1)) :=
  fun h => Option.noConfusion h

/-- C6 (amended): whenever both numeric ranks are defined (the `u32`
computation `2 + extra` does not overflow), `q1 < q2` under the implemented
ordering iff `q1`'s numeric rank is less than `q2`'s, the ranks being
explicit-symbol 0, explicit-identifier 1, exact-identifier 2 and
identifier-prefix-match(matched, extra) `2 + extra`; hence exact-identifier
outranks every prefix match whose `extra ≥ 1` and whose rank does not
overflow, and a prefix match with `extra = 1` outranks one with
`extra = 2`. -/
theorem c6_symbol_quality_rank_order :
    (∀ (q1 q2 : SymbolQuality) (ra rb : Nat),
      q1.numeric_rank = some ra → q2.numeric_rank = some rb →
      (SymbolQuality.ltRank q1 q2 ↔ ra < rb)) ∧
    (SymbolQuality.numeric_rank .explicitSymbol = some 0 ∧
      SymbolQuality.numeric_rank .explicitIdentifier = some 1 ∧
      SymbolQuality.numeric_rank .exactIdentifier = some 2 ∧
      ∀ m e : Nat, 2 + e ≤ U32MAX →
        SymbolQuality.numeric_rank (.identifierPrefixMatch m e) = some (2 + e)) ∧
    (∀ m e : Nat, 1 ≤ e → 2 + e ≤ U32MAX →
      SymbolQuality.ltRank .exactIdentifier (.identifierPrefixMatch m e)) ∧
    (∀ m m' : Nat,
      SymbolQuality.ltRank (.identifierPrefixMatch m 1) (.identifierPrefixMatch m' 2)) := by
  have hiff : ∀ (q1 q2 : SymbolQuality) (ra rb : Nat),
      q1.numeric_rank = some ra → q2.numeric_rank = some rb →
      (SymbolQuality.ltRank q1 q2 ↔ ra < rb) := by
    intro q1 q2 ra rb h1 h2
    unfold SymbolQuality.ltRank SymbolQuality.cmpRank
    rw [h1, h2]
    show some (compare ra rb) = some Ordering.lt ↔ ra < rb
    constructor
    · intro h
      exact Nat.compare_eq_lt.mp (by simpa using h)
    · intro h
      rw [Nat.compare_eq_lt.mpr h]
  have hpfx : ∀ m e : Nat, 2 + e ≤ U32MAX →
      SymbolQuality.numeric_rank (.identifierPrefixMatch m e) = some (2 + e) := by
    intro m e he
    show u32Add 2 e = some (2 + e)
    unfold u32Add
    rw [if_pos he]
  refine ⟨hiff, ⟨rfl, rfl, rfl, hpfx⟩, ?_, ?_⟩
  · intro m e he hov
    rw [hiff .exactIdentifier (.identifierPrefixMatch m e) 2 (2 + e) rfl (hpfx m e hov)]
    omega
  · intro m m'
    rw [hiff (.identifierPrefixMatch m 1) (.identifierPrefixMatch m' 2) 3 4
      (hpfx m 1 (by decide)) (hpfx m' 2 (by decide))]
    decide

/-- Witness for C6 at concrete inputs: exact-identifier outranks the prefix
match with one extra character, whose rank computation does not overflow. -/
theorem c6_symbol_quality_rank_order_witness :
    SymbolQuality.ltRank .exactIdentifier (.identifierPrefixMatch 3 1) :=
  c6_symbol_quality_rank_order.2.2.1 3 1 (by decide) (by decide)

/-- interface.rs `SymbolRelation`. -/
inductive SymbolRelation
  | queried
  | overrideOf (sym : String) (distance : Nat)
  | overriddenBy (sym : String) (distance : Nat)
  | cousinOverrideOf (sym : String) (distance : Nat)
  | subclassOf (sym : String) (distance : Nat)
  | superclassOf (sym : String) (distance : Nat)
  | cousinClassOf (sym : String) (distance : Nat)

/-- interface.rs `OverloadKind`. -/
inductive OverloadKind
  | overrides
  | subclasses

/-- interface.rs `OverloadInfo`. -/
structure OverloadInfo where
  kind : OverloadKind
  exist : Nat
  included : Nat
  local_limit : Nat
  global_limit : Nat

/-- interface.rs `IdentifierList`. -/
structure IdentifierList where
  identifiers : List String

/-- interface.rs `SymbolWithContext`. -/
structure SymbolWithContext where
  symbol : String
  quality : SymbolQuality
  from_identifier : Option String

/-- interface.rs `SymbolList`. -/
structure SymbolList where
  symbols : List SymbolWithContext

/-- interface.rs `SymbolCrossrefInfo`. -/
structure SymbolCrossrefInfo where
  symbol : String
  crossref_info : Json
  relation : SymbolRelation
  quality : SymbolQuality
  overloads_hit : List OverloadInfo

/-- interface.rs `SymbolCrossrefInfoList`. -/
structure SymbolCrossrefInfoList where
  symbol_crossref_infos : List SymbolCrossrefInfo

/-- Modelled from the spec: `SymbolGraphCollection` lives in the excluded
`symbol_graph` module and the spec treats it as an abstract collection produced
and consumed by excluded collaborators, so it carries no observable payload
here. -/
structure SymbolGraphCollection where

/-- interface.rs `PathKind` (ordered Normal < ThirdParty < Test < Generated). -/
inductive PathKind
  | Normal
  | ThirdParty
  | Test
  | Generated

/-- interface.rs `PresentationKind`. -/
inductive PresentationKind
  | IDL
  | Definitions
  | Declarations
  | Assignments
  | Uses
  | TextualOccurrences

/-- interface.rs `ResultFacetKind`. -/
inductive ResultFacetKind
  | SymbolByRelation
  | PathByPath

/-- interface.rs `ResultFacetGroup`. -/
structure ResultFacetGroup where
  label : String
  values : List String
  nested_groups : List ResultFacetGroup
  count : Nat

/-- interface.rs `ResultFacetRoot`. -/
structure ResultFacetRoot where
  label : String
  kind : ResultFacetKind
  groups : List ResultFacetGroup

/-- interface.rs `FlattenedLineSpan` (1-based line numbers). -/
structure FlattenedLineSpan where
  key_line : Nat
  line_range : Nat × Nat
  contents : String
  context : String
  contextsym : String

/-- interface.rs `FlattenedLineSpan::expand_range_in_isolation`: the start is
computed over `i64` and clamped to at least 1 (so it cannot underflow), the
end is a checked `u32` addition. -/
def FlattenedLineSpan.expand_range_in_isolation
    (span : FlattenedLineSpan) (before after : Nat) : Option (Nat × Nat) :=
  (u32Add span.line_range.2 after).map fun e =>
    (Int.toNat (max 1 ((span.line_range.1 : Int) - (before : Int))), e)

/-- The `HashMap<String, HashSet<u32>>` of `compute_path_line_sets`. -/
abbrev LineSets := String → Option (Finset Nat)

def lineSetsInsert (m : LineSets) (k : String) (s : Finset Nat) : LineSets :=
  fun k' => if k' = k then some s else m k'

/-- Per-file line contents: the `HashMap<u32, String>` of `ingest_html_lines`. -/
abbrev FileLines := Nat → Option String

/-- The `HashMap<String, HashMap<u32, String>>` of `ingest_html_lines`. -/
abbrev PathLineContents := String → Option FileLines

/-- interface.rs `FlattenedResultsByFile`. -/
structure FlattenedResultsByFile where
  file : String
  line_spans : List FlattenedLineSpan

/-- The span loop of interface.rs
`FlattenedResultsByFile::accumulate_path_line_sets` (lines 408–413): insert
every line of every span's isolation-expanded range into the accumulating
set. -/
def accumulateSpanLines (before after : Nat) :
    Finset Nat → List FlattenedLineSpan → Option (Finset Nat)
  | acc, [] => some acc
  | acc, span :: rest =>
    match span.expand_range_in_isolation before after with
    | none => none
    | some r => accumulateSpanLines before after (acc ∪ Finset.Icc r.1 r.2) rest

/-- interface.rs `FlattenedResultsByFile::accumulate_path_line_sets`: fetch or
create this file's entry (`entry(..).or_insert_with(HashSet::new)`), then
insert every line of every span's isolation-expanded range. -/
def FlattenedResultsByFile.accumulate_path_line_sets
    (g : FlattenedResultsByFile) (m : LineSets) (before after : Nat) :
    Option LineSets :=
  match accumulateSpanLines before after ((m g.file).getD ∅) g.line_spans with
  | none => none
  | some s => some (lineSetsInsert m g.file s)

/-- The lines fetched for a clamped range (interface.rs 439–444):
`for line in this_start..=this_end`, keeping lines present in the map. -/
def fetchLines (fc : FileLines) (s e : Nat) : List String :=
  (List.range' s (e + 1 - s)).filterMap fc

/-- One iteration of the span loop of interface.rs
`FlattenedResultsByFile::ingest_html_lines` (lines 425–451): clamp the
isolation-expanded range against the prior spans' `highest_line` and the next
span's original start, fetch available lines, rewrite the span in place, and
return the new `highest_line`. -/
def ingestSpanStep (fc : FileLines) (before after highest : Nat)
    (span : FlattenedLineSpan) (next_start? : Option Nat) :
    Option (FlattenedLineSpan × Nat) :=
  match span.expand_range_in_isolation before after with
  | none => none
  | some exp =>
    match (if exp.1 ≤ highest then u32Add highest 1 else some exp.1) with
    | none => none
    | some this_start =>
      match (match next_start? with
             | some ns => if exp.2 ≥ ns then u32Sub ns 1 else some exp.2
             | none => some exp.2) with
      | none => none
      | some this_end =>
        let lines := fetchLines fc this_start this_end
        match usizeSub lines.length 1 with
        | none => none
        | some lenSub1 =>
          match u32Add this_start (usizeAsU32 lenSub1) with
          | none => none
          | some newEnd =>
            some ({ span with
                      line_range := (this_start, newEnd),
                      contents := String.intercalate "\n" lines },
                  this_end)

/-- The span loop of interface.rs `FlattenedResultsByFile::ingest_html_lines`,
threading `highest_line` (the next span's original `line_range.0` is read from
the not-yet-rewritten tail). -/
def ingestSpans (fc : FileLines) (before after : Nat) :
    Nat → List FlattenedLineSpan → Option (List FlattenedLineSpan)
  | _, [] => some []
  | highest, span :: rest =>
    match ingestSpanStep fc before after highest span
        (rest.head?.map fun nxt => nxt.line_range.1) with
    | none => none
    | some sh =>
      match ingestSpans fc before after sh.2 rest with
      | none => none
      | some rest' => some (sh.1 :: rest')

/-- interface.rs `FlattenedResultsByFile::ingest_html_lines`: files absent
from the content mapping are left untouched. -/
def FlattenedResultsByFile.ingest_html_lines
    (g : FlattenedResultsByFile) (path_line_contents : PathLineContents)
    (before after : Nat) : Option FlattenedResultsByFile :=
  match path_line_contents g.file with
  | none => some g
  | some fc =>
    match ingestSpans fc before after 0 g.line_spans with
    | none => none
    | some spans' => some { g with line_spans := spans' }

/-- interface.rs `FlattenedKindGroupResults`. -/
structure FlattenedKindGroupResults where
  kind : PresentationKind
  pretty : String
  facets : List ResultFacetRoot
  by_file : List FlattenedResultsByFile

/-- The by-file loop of interface.rs
`FlattenedKindGroupResults::accumulate_path_line_sets`. -/
def accumulateByFileGroups (before after : Nat) :
    LineSets → List FlattenedResultsByFile → Option LineSets
  | m, [] => some m
  | m, g :: rest =>
    match FlattenedResultsByFile.accumulate_path_line_sets g m before after with
    | none => none
    | some m' => accumulateByFileGroups before after m' rest

/-- interface.rs `FlattenedKindGroupResults::accumulate_path_line_sets`. -/
def FlattenedKindGroupResults.accumulate_path_line_sets
    (kg : FlattenedKindGroupResults) (m : LineSets) (before after : Nat) :
    Option LineSets :=
  accumulateByFileGroups before after m kg.by_file

/-- The by-file loop of interface.rs
`FlattenedKindGroupResults::ingest_html_lines`. -/
def ingestByFileGroups (path_line_contents : PathLineContents) (before after : Nat) :
    List FlattenedResultsByFile → Option (List FlattenedResultsByFile)
  | [] => some []
  | g :: rest =>
    match FlattenedResultsByFile.ingest_html_lines g path_line_contents before after with
    | none => none
    | some g' =>
      match ingestByFileGroups path_line_contents before after rest with
      | none => none
      | some rest' => some (g' :: rest')

/-- interface.rs `FlattenedKindGroupResults::ingest_html_lines`. -/
def FlattenedKindGroupResults.ingest_html_lines
    (kg : FlattenedKindGroupResults) (path_line_contents : PathLineContents)
    (before after : Nat) : Option FlattenedKindGroupResults :=
  match ingestByFileGroups path_line_contents before after kg.by_file with
  | none => none
  | some bf => some { kg with by_file := bf }

/-- interface.rs `FlattenedPathKindGroupResults`. -/
structure FlattenedPathKindGroupResults where
  path_kind : PathKind
  file_names : List String
  kind_groups : List FlattenedKindGroupResults

/-- The kind-group loop of interface.rs
`FlattenedPathKindGroupResults::accumulate_path_line_sets`. -/
def accumulateKindGroups (before after : Nat) :
    LineSets → List FlattenedKindGroupResults → Option LineSets
  | m, [] => some m
  | m, kg :: rest =>
    match FlattenedKindGroupResults.accumulate_path_line_sets kg m before after with
    | none => none
    | some m' => accumulateKindGroups before after m' rest

/-- interface.rs `FlattenedPathKindGroupResults::accumulate_path_line_sets`. -/
def FlattenedPathKindGroupResults.accumulate_path_line_sets
    (pk : FlattenedPathKindGroupResults) (m : LineSets) (before after : Nat) :
    Option LineSets :=
  accumulateKindGroups before after m pk.kind_groups

/-- The kind-group loop of interface.rs
`FlattenedPathKindGroupResults::ingest_html_lines`. -/
def ingestKindGroups (path_line_contents : PathLineContents) (before after : Nat) :
    List FlattenedKindGroupResults → Option (List FlattenedKindGroupResults)
  | [] => some []
  | kg :: rest =>
    match FlattenedKindGroupResults.ingest_html_lines kg path_line_contents before after with
    | none => none
    | some kg' =>
      match ingestKindGroups path_line_contents before after rest with
      | none => none
      | some rest' => some (kg' :: rest')

/-- interface.rs `FlattenedPathKindGroupResults::ingest_html_lines`. -/
def FlattenedPathKindGroupResults.ingest_html_lines
    (pk : FlattenedPathKindGroupResults) (path_line_contents : PathLineContents)
    (before after : Nat) : Option FlattenedPathKindGroupResults :=
  match ingestKindGroups path_line_contents before after pk.kind_groups with
  | none => none
  | some kgs => some { pk with kind_groups := kgs }

/-- interface.rs `FlattenedResultsBundle`. -/
structure FlattenedResultsBundle where
  path_kind_results : List FlattenedPathKindGroupResults
  content_type : String

/-- interface.rs `FlattenedResultsBundle::compute_path_line_sets`: start from
an empty map and accumulate every path-kind group. -/
def accumulatePathKindGroups (before after : Nat) :
    LineSets → List FlattenedPathKindGroupResults → Option LineSets
  | m, [] => some m
  | m, pk :: rest =>
    match FlattenedPathKindGroupResults.accumulate_path_line_sets pk m before after with
    | none => none
    | some m' => accumulatePathKindGroups before after m' rest

def FlattenedResultsBundle.compute_path_line_sets
    (b : FlattenedResultsBundle) (before after : Nat) : Option LineSets :=
  accumulatePathKindGroups before after (fun _ => none) b.path_kind_results

/-- interface.rs `FlattenedResultsBundle::ingest_html_lines`: the content type
becomes "text/html" and every path-kind group is rewritten. -/
def ingestPathKindGroups (path_line_contents : PathLineContents) (before after : Nat) :
    List FlattenedPathKindGroupResults → Option (List FlattenedPathKindGroupResults)
  | [] => some []
  | pk :: rest =>
    match FlattenedPathKindGroupResults.ingest_html_lines pk path_line_contents before after with
    | none => none
    | some pk' =>
      match ingestPathKindGroups path_line_contents before after rest with
      | none => none
      | some rest' => some (pk' :: rest')

def FlattenedResultsBundle.ingest_html_lines
    (b : FlattenedResultsBundle) (path_line_contents : PathLineContents)
    (before after : Nat) : Option FlattenedResultsBundle :=
  match ingestPathKindGroups path_line_contents before after b.path_kind_results with
  | none => none
  | some pks => some { path_kind_results := pks, content_type := "text/html" }

/-- interface.rs `FileMatch`. -/
structure FileMatch where
  path : String

/-- interface.rs `FileMatches`. -/
structure FileMatches where
  file_matches : List FileMatch

/-- interface.rs `JsonValue`. -/
structure JsonValue where
  value : Json

/-- interface.rs `JsonRecordsByFile`. -/
structure JsonRecordsByFile where
  file : String
  records : List Json

/-- interface.rs `JsonRecords`. -/
structure JsonRecords where
  by_file : List JsonRecordsByFile

/-- interface.rs `HtmlExcerptsByFile`. -/
structure HtmlExcerptsByFile where
  file : String
  excerpts : List String

/-- interface.rs `HtmlExcerpts`. -/
structure HtmlExcerpts where
  by_file : List HtmlExcerptsByFile

/-- interface.rs `TextFile`. -/
structure TextFile where
  mime_type : String
  contents : String

/-- Modelled from the spec: `abstract_server::TextMatches` (the text-match
list returned by the query backend) lives in an excluded module; the spec
leaves it abstract beyond being a list of matches. -/
structure TextMatches where
  match_list : List String

/-- interface.rs `PipelineValues`: the closed set of values flowing between
pipeline segments. -/
inductive PipelineValues
  | identifierList (il : IdentifierList)
  | symbolList (sl : SymbolList)
  | symbolCrossrefInfoList (scl : SymbolCrossrefInfoList)
  | symbolGraphCollection (sgc : SymbolGraphCollection)
  | jsonValue (jv : JsonValue)
  | jsonRecords (jr : JsonRecords)
  | fileMatches (fm : FileMatches)
  | textMatches (tm : TextMatches)
  | htmlExcerpts (he : HtmlExcerpts)
  | flattenedResultsBundle (frb : FlattenedResultsBundle)
  | textFile (tf : TextFile)
  | void

/-- Modelled from the spec: the §7 error taxonomy of the excluded
`abstract_server::ErrorLayer` — bad-input errors, backend errors, internal
scheduling errors. -/
inductive ErrorLayer
  | BadInput
  | BackendFailure
  | InternalError

/-- Modelled from the spec: `abstract_server::ErrorDetails`, "describing the
failing layer and a message" (§7), as used by cmd_search_text.rs. -/
structure ErrorDetails where
  layer : ErrorLayer
  message : String

/-- Modelled from the spec: `abstract_server::ServerError`; cmd_search_text.rs
constructs the `StickyProblem` (not-retried) variant. -/
inductive ServerError
  | StickyProblem (details : ErrorDetails)

/-- The command loop of interface.rs `NamedPipeline::run` (lines 615–635):
each command maps the current value to the next; the first error is returned
as is.  The shared server handle is captured inside the command function;
tracing has no semantic effect and is omitted. -/
def runCommands :
    List (PipelineValues → Except ServerError PipelineValues) →
    PipelineValues → Except ServerError PipelineValues
  | [], cur => .ok cur
  | cmd :: rest, cur =>
    match cmd cur with
    | .ok next => runCommands rest next
    | .error e => .error e

/-- interface.rs `NamedPipeline`. -/
structure NamedPipeline where
  input_name : Option String
  output_name : String
  commands : List (PipelineValues → Except ServerError PipelineValues)

/-- interface.rs `NamedPipeline::run`. -/
def NamedPipeline.run (np : NamedPipeline) (cur : PipelineValues) :
    Except ServerError PipelineValues :=
  runCommands np.commands cur

/-- interface.rs `JunctionInvocation` (the fan-in command is a function of the
ordered input values; the server handle is captured inside it). -/
structure JunctionInvocation where
  input_names : List String
  output_name : String
  command : List PipelineValues → Except ServerError PipelineValues

/-- interface.rs `JunctionInvocation::run` (tracing omitted; errors propagate
unchanged). -/
def JunctionInvocation.run (j : JunctionInvocation) (inputs : List PipelineValues) :
    Except ServerError PipelineValues :=
  j.command inputs

/-- interface.rs `ParallelPipelines`. -/
structure ParallelPipelines where
  pipelines : List NamedPipeline
  junctions : List JunctionInvocation

/-- The `BTreeMap<String, PipelineValues>` shared store of
`ServerPipelineGraph::run`. -/
abbrev Store := String → Option PipelineValues

def Store.empty : Store := fun _ => none

def Store.insert (σ : Store) (k : String) (v : PipelineValues) : Store :=
  fun k' => if k' = k then some v else σ k'

/-- `named_values.remove(name)` followed by void substitution (interface.rs
lines 732–735 and 757–760): claim the named value out of the store, or
substitute `Void` when the key is absent. -/
def Store.popOr (σ : Store) (k : String) : PipelineValues × Store :=
  match σ k with
  | some v => (v, fun k' => if k' = k then none else σ k')
  | none => (PipelineValues.void, σ)

/-- Input selection for one named pipeline (interface.rs lines 727–738). -/
def pipelineInput (σ : Store) (name? : Option String) : PipelineValues × Store :=
  match name? with
  | some name => Store.popOr σ name
  | none => (PipelineValues.void, σ)

/-- The spawn loop for a stage's named pipelines (interface.rs 724–743):
sequentially pop each pipeline's input and spawn its task; since a task is a
pure function of its captured input, its eventual result is recorded at spawn
time. -/
def spawnPipelines (σ : Store) :
    List NamedPipeline → List (String × Except ServerError PipelineValues) × Store
  | [] => ([], σ)
  | np :: rest =>
    let iv := pipelineInput σ np.input_name
    let rec_result := spawnPipelines iv.2 rest
    ((np.output_name, np.run iv.1) :: rec_result.1, rec_result.2)

/-- The join loops of interface.rs 746–749 and 768–771: await each task in
spawn order; `?` aborts the whole run on the first error, otherwise the output
is inserted under its declared key. -/
def joinTasks (σ : Store) :
    List (String × Except ServerError PipelineValues) → Except ServerError Store
  | [] => .ok σ
  | (out, .ok v) :: rest => joinTasks (Store.insert σ out v) rest
  | (_, .error e) :: _ => .error e

/-- Sequentially pop a junction's declared inputs (interface.rs 755–761),
substituting `Void` for missing keys. -/
def popJunctionInputs (σ : Store) : List String → List PipelineValues × Store
  | [] => ([], σ)
  | name :: rest =>
    let v := Store.popOr σ name
    let vs := popJunctionInputs v.2 rest
    (v.1 :: vs.1, vs.2)

/-- The spawn loop for a stage's junctions (interface.rs 752–766). -/
def spawnJunctions (σ : Store) :
    List JunctionInvocation → List (String × Except ServerError PipelineValues) × Store
  | [] => ([], σ)
  | j :: rest =>
    let iv := popJunctionInputs σ j.input_names
    let rec_result := spawnJunctions iv.2 rest
    ((j.output_name, j.run iv.1) :: rec_result.1, rec_result.2)

/-- One `ParallelPipelines` stage of interface.rs `ServerPipelineGraph::run`:
spawn and join the named pipelines, then spawn and join the junctions. -/
def runStage (σ : Store) (st : ParallelPipelines) : Except ServerError Store :=
  let ptasks := spawnPipelines σ st.pipelines
  match joinTasks ptasks.2 ptasks.1 with
  | .error e => .error e
  | .ok σ2 =>
    let jtasks := spawnJunctions σ2 st.junctions
    joinTasks jtasks.2 jtasks.1

/-- interface.rs `ServerPipelineGraph` (the single-use graph; the server
handle is captured inside the commands). -/
structure ServerPipelineGraph where
  pipelines : List ParallelPipelines

/-- The stage loop of interface.rs `ServerPipelineGraph::run` (lines 722–772):
stage order is fixed; `?` propagates the first stage failure. -/
def runStages (σ : Store) : List ParallelPipelines → Except ServerError Store
  | [] => .ok σ
  | st :: rest =>
    match runStage σ st with
    | .ok σ' => runStages σ' rest
    | .error e => .error e

/-- interface.rs `ServerPipelineGraph::run`: run the stages in order over the
shared store, then return the value removed from the reserved key "result",
or `Void` if absent. -/
def ServerPipelineGraph.run (g : ServerPipelineGraph) :
    Except ServerError PipelineValues :=
  match runStages Store.empty g.pipelines with
  | .error e => .error e
  | .ok σ => .ok (Store.popOr σ "result").1

/-- cmd_search_text.rs `SearchText` (the parsed command arguments). -/
structure SearchText where
  text : Option String
  re : Option String
  path : Option String
  pathre : Option String
  case_sensitive : Bool
  limit : Nat

/-- cmd_search_text.rs lines 52–61: choose the regexp pattern — `re` verbatim,
else the regexp-escaped `text`, else a descriptive bad-input error.
`regex::escape` is an excluded collaborator passed as `escapeRegex`. -/
def SearchText.re_pattern (args : SearchText) (escapeRegex : String → String) :
    Except ServerError String :=
  match args.re with
  | some re => .ok re
  | none =>
    match args.text with
    | some text => .ok (escapeRegex text)
    | none => .error (.StickyProblem
        { layer := .BadInput, message := "Missing search text or `re` pattern!" })

/-- cmd_search_text.rs lines 63–69: choose the path pattern — `pathre`
verbatim, else the glob-transformed `path`, else the empty string.
`path_glob_transform` is an excluded collaborator passed as a parameter. -/
def SearchText.pathre_pattern (args : SearchText)
    (path_glob_transform : String → String) : String :=
  match args.pathre with
  | some pathre => pathre
  | none =>
    match args.path with
    | some path => path_glob_transform path
    | none => ""

/-- cmd_search_text.rs `SearchTextCommand::execute`: `server.search_text` is
the abstract backend capability; the pipeline input is ignored by the source
(`_input`), and a backend error propagates unchanged via `?`. -/
def SearchTextCommand.execute
    (escapeRegex : String → String) (path_glob_transform : String → String)
    (search_text : String → Bool → String → Nat → Except ServerError TextMatches)
    (args : SearchText) (_input : PipelineValues) :
    Except ServerError PipelineValues :=
  match args.re_pattern escapeRegex with
  | .error e => .error e
  | .ok re_pattern =>
    match search_text re_pattern (!args.case_sensitive)
        (args.pathre_pattern path_glob_transform) args.limit with
    | .error e => .error e
    | .ok found => .ok (.textMatches found)

/-! ## Helper lemmas -/

abbrev PipeCmd := PipelineValues → Except ServerError PipelineValues

theorem except_bind_ok {ε α β : Type} (v : α) (f : α → Except ε β) :
    (Except.ok v : Except ε α).bind f = f v := rfl

theorem except_bind_error {ε α β : Type} (e : ε) (f : α → Except ε β) :
    (Except.error e : Except ε α).bind f = Except.error e := rfl

theorem runCommands_cons (c : PipeCmd) (cs : List PipeCmd) (v : PipelineValues) :
    runCommands (c :: cs) v = (c v).bind (runCommands cs) := by
  unfold runCommands
  cases c v with
  | ok w => rfl
  | error e => rfl

theorem runCommands_append (cs1 cs2 : List PipeCmd) (v : PipelineValues) :
    runCommands (cs1 ++ cs2) v = (runCommands cs1 v).bind (runCommands cs2) := by
  induction cs1 generalizing v with
  | nil => rfl
  | cons c cs ih =>
    rw [List.cons_append, runCommands_cons, runCommands_cons]
    cases c v with
    | ok w => rw [except_bind_ok, except_bind_ok, ih]
    | error e => rfl

/-- C7: the named-pipeline runner executes its commands strictly sequentially,
feeding each command's output to the next starting from the initial value:
splitting the command list around any command, the run is the run of the
first segment, bound into that command, bound into the rest — so the first
error stops execution there and is returned as the overall (error) result with
no partial value, and if all commands succeed the last command's output is
returned; the empty chain returns the initial value unchanged. -/
theorem c7_named_pipeline_sequential :
    (∀ v : PipelineValues, runCommands [] v = .ok v) ∧
    (∀ (cs1 : List PipeCmd) (c : PipeCmd) (cs2 : List PipeCmd) (v : PipelineValues),
      runCommands (cs1 ++ c :: cs2) v =
        (runCommands cs1 v).bind fun w => (c w).bind (runCommands cs2)) ∧
    (∀ (np : NamedPipeline) (v : PipelineValues),
      NamedPipeline.run np v = runCommands np.commands v) := by
  refine ⟨fun v => rfl, ?_, fun np v => rfl⟩
  intro cs1 c cs2 v
  rw [runCommands_append]
  cases runCommands cs1 v with
  | error e => rfl
  | ok w => rw [except_bind_ok, except_bind_ok, runCommands_cons]

/-- C9: executing the text-search command with neither a literal text argument
nor a regular-expression argument returns the descriptive bad-input-layer
error, for every input value and every backend (so the backend is not
consulted and nothing panics); and when the pattern selection succeeds but the
backend call fails, that backend error is surfaced unchanged. -/
theorem c9_search_text_error_paths :
    (∀ (esc pgt : String → String)
       (st : String → Bool → String → Nat → Except ServerError TextMatches)
       (args : SearchText) (input : PipelineValues),
      args.re = none → args.text = none →
      SearchTextCommand.execute esc pgt st args input =
        .error (.StickyProblem
          { layer := .BadInput, message := "Missing search text or `re` pattern!" })) ∧
    (∀ (esc pgt : String → String)
       (st : String → Bool → String → Nat → Except ServerError TextMatches)
       (args : SearchText) (input : PipelineValues) (p : String) (e : ServerError),
      SearchText.re_pattern args esc = .ok p →
      st p (!args.case_sensitive) (SearchText.pathre_pattern args pgt) args.limit =
        .error e →
      SearchTextCommand.execute esc pgt st args input = .error e) := by
  constructor
  · intro esc pgt st args input hre htext
    unfold SearchTextCommand.execute SearchText.re_pattern
    rw [hre, htext]
  · intro esc pgt st args input p e hp hb
    unfold SearchTextCommand.execute
    rw [hp]
    show (match st p (!args.case_sensitive) (args.pathre_pattern pgt) args.limit with
          | .error e => (.error e : Except ServerError PipelineValues)
          | .ok found => .ok (.textMatches found)) = .error e
    rw [hb]

/-- Witness for C9 at concrete inputs: a query with no text and no regexp gets
the bad-input error even against a healthy backend, and a backend failure is
surfaced unchanged for a query with a regexp. -/
theorem c9_search_text_error_paths_witness :
    (SearchTextCommand.execute id id
      (fun _ _ _ _ => .ok { match_list := ["hit"] })
      { text := none, re := none, path := none, pathre := none,
        case_sensitive := false, limit := 0 }
      .void =
      .error (.StickyProblem
        { layer := .BadInput, message := "Missing search text or `re` pattern!" })) ∧
    (SearchTextCommand.execute id id
      (fun _ _ _ _ => .error (.StickyProblem
        { layer := .BackendFailure, message := "backend down" }))
      { text := none, re := some "foo.*", path := none, pathre := none,
        case_sensitive := false, limit := 0 }
      .void =
      .error (.StickyProblem { layer := .BackendFailure, message := "backend down" })) :=
  ⟨c9_search_text_error_paths.1 id id
      (fun _ _ _ _ => .ok { match_list := ["hit"] })
      { text := none, re := none, path := none, pathre := none,
        case_sensitive := false, limit := 0 } .void rfl rfl,
    c9_search_text_error_paths.2 id id
      (fun _ _ _ _ => .error (.StickyProblem
        { layer := .BackendFailure, message := "backend down" }))
      { text := none, re := some "foo.*", path := none, pathre := none,
        case_sensitive := false, limit := 0 } .void "foo.*"
      (.StickyProblem { layer := .BackendFailure, message := "backend down" }) rfl rfl⟩

/-- C3: a graph run that completes without error returns the value stored
under the reserved key "result" after the last stage, and the void value when
that key was never produced. -/
theorem c3_reserved_result_key (g : ServerPipelineGraph) (σ : Store)
    (h : runStages Store.empty g.pipelines = .ok σ) :
    ServerPipelineGraph.run g = .ok ((σ "result").getD PipelineValues.void) ∧
    (σ "result" = none → ServerPipelineGraph.run g = .ok PipelineValues.void) := by
  have hrun : ServerPipelineGraph.run g = .ok (Store.popOr σ "result").1 := by
    unfold ServerPipelineGraph.run
    rw [h]
  have hpop : (Store.popOr σ "result").1 = (σ "result").getD PipelineValues.void := by
    unfold Store.popOr
    cases σ "result" with
    | some v => rfl
    | none => rfl
  refine ⟨by rw [hrun, hpop], fun hnone => ?_⟩
  rw [hrun, hpop, hnone]
  rfl

/-- Witness for C3 at a concrete input: the empty graph never produces
"result" and returns void. -/
theorem c3_reserved_result_key_witness :
    ServerPipelineGraph.run { pipelines := [] } = .ok PipelineValues.void :=
  (c3_reserved_result_key { pipelines := [] } Store.empty rfl).2 rfl

theorem popOr_preserves_none (σ : Store) (n k : String) (h : σ k = none) :
    (Store.popOr σ n).2 k = none := by
  unfold Store.popOr
  cases σ n with
  | some v =>
    show (if k = n then none else σ k) = none
    by_cases hk : k = n <;> simp [hk, h]
  | none => exact h

theorem pipelineInput_preserves_none (σ : Store) (name? : Option String)
    (k : String) (h : σ k = none) : (pipelineInput σ name?).2 k = none := by
  unfold pipelineInput
  cases name? with
  | some n => exact popOr_preserves_none σ n k h
  | none => exact h

theorem popJunctionInputs_preserves_none (k : String) :
    ∀ (names : List String) (σ : Store), σ k = none →
      (popJunctionInputs σ names).2 k = none := by
  intro names
  induction names with
  | nil => intro σ h; exact h
  | cons n rest ih =>
    intro σ h
    show (popJunctionInputs (Store.popOr σ n).2 rest).2 k = none
    exact ih _ (popOr_preserves_none σ n k h)

theorem spawnPipelines_task_void (k : String) :
    ∀ (ps : List NamedPipeline) (σ : Store) (i : Nat) (np : NamedPipeline),
      ps.get? i = some np → np.input_name = some k → σ k = none →
      (spawnPipelines σ ps).1.get? i =
        some (np.output_name, np.run PipelineValues.void) := by
  intro ps
  induction ps with
  | nil => intro σ i np h; simp at h
  | cons p rest ih =>
    intro σ i np hget hname hk
    cases i with
    | zero =>
      have hp : p = np := by simpa using hget
      subst hp
      show some (p.output_name, p.run (pipelineInput σ p.input_name).1) = _
      have : (pipelineInput σ p.input_name).1 = PipelineValues.void := by
        rw [show pipelineInput σ p.input_name = pipelineInput σ (some k) from by rw [hname]]
        show (Store.popOr σ k).1 = PipelineValues.void
        unfold Store.popOr
        rw [hk]
      rw [this]
    | succ n =>
      have hget' : rest.get? n = some np := by simpa using hget
      have hk' : (pipelineInput σ p.input_name).2 k = none :=
        pipelineInput_preserves_none σ p.input_name k hk
      show (spawnPipelines (pipelineInput σ p.input_name).2 rest).1.get? n = _
      exact ih _ n np hget' hname hk'

theorem popJunctionInputs_void (k : String) :
    ∀ (names : List String) (σ : Store) (t : Nat),
      names.get? t = some k → σ k = none →
      (popJunctionInputs σ names).1.get? t = some PipelineValues.void := by
  intro names
  induction names with
  | nil => intro σ t h; simp at h
  | cons n rest ih =>
    intro σ t hget hk
    cases t with
    | zero =>
      have hn : n = k := by simpa using hget
      subst hn
      show some (Store.popOr σ n).1 = some PipelineValues.void
      unfold Store.popOr
      rw [hk]
    | succ m =>
      have hget' : rest.get? m = some k := by simpa using hget
      show (popJunctionInputs (Store.popOr σ n).2 rest).1.get? m = _
      exact ih _ m hget' (popOr_preserves_none σ n k hk)

theorem spawnJunctions_task_void (k : String) :
    ∀ (js : List JunctionInvocation) (σ : Store) (i t : Nat)
      (j : JunctionInvocation),
      js.get? i = some j → j.input_names.get? t = some k → σ k = none →
      ∃ inputs, (spawnJunctions σ js).1.get? i = some (j.output_name, j.run inputs) ∧
        inputs.get? t = some PipelineValues.void := by
  intro js
  induction js with
  | nil => intro σ i t j h; simp at h
  | cons j0 rest ih =>
    intro σ i t j hget hname hk
    cases i with
    | zero =>
      have hj : j0 = j := by simpa using hget
      subst hj
      refine ⟨(popJunctionInputs σ j0.input_names).1, rfl, ?_⟩
      exact popJunctionInputs_void k j0.input_names σ t hname hk
    | succ n =>
      have hget' : rest.get? n = some j := by simpa using hget
      have hk' : (popJunctionInputs σ j0.input_names).2 k = none :=
        popJunctionInputs_preserves_none k j0.input_names σ hk
      obtain ⟨inputs, h1, h2⟩ := ih _ n t j hget' hname hk'
      exact ⟨inputs, by simpa [spawnJunctions] using h1, h2⟩

/-- C1: a named pipeline whose declared input key is absent from the shared
store at the start of its stage is dispatched with the void value as its input
(the task spawned for it is its run applied to `Void`, so the run does not
fail on account of the missing key), and the same void substitution is applied
to each missing input key of a junction. -/
theorem c1_missing_key_substitutes_void :
    (∀ (σ : Store) (ps : List NamedPipeline) (i : Nat) (np : NamedPipeline)
       (k : String),
      ps.get? i = some np → np.input_name = some k → σ k = none →
      (spawnPipelines σ ps).1.get? i =
        some (np.output_name, np.run PipelineValues.void)) ∧
    (∀ (σ : Store) (js : List JunctionInvocation) (i t : Nat)
       (j : JunctionInvocation) (k : String),
      js.get? i = some j → j.input_names.get? t = some k → σ k = none →
      ∃ inputs, (spawnJunctions σ js).1.get? i = some (j.output_name, j.run inputs) ∧
        inputs.get? t = some PipelineValues.void) :=
  ⟨fun σ ps i np k hget hname hk => spawnPipelines_task_void k ps σ i np hget hname hk,
   fun σ js i t j k hget hname hk => spawnJunctions_task_void k js σ i t j hget hname hk⟩

/-- Witness for C1 at concrete inputs: a pipeline reading the never-produced
key "missing" is run on void, and a junction reading the never-produced key
"gone" receives void in that input position. -/
theorem c1_missing_key_substitutes_void_witness :
    ((spawnPipelines Store.empty
        [{ input_name := some "missing", output_name := "out", commands := [] }]).1.get? 0 =
      some ("out",
        NamedPipeline.run
          { input_name := some "missing", output_name := "out", commands := [] }
          PipelineValues.void)) ∧
    (∃ inputs,
      (spawnJunctions Store.empty
        [{ input_names := ["gone"], output_name := "jout",
           command := fun _ => .ok PipelineValues.void }]).1.get? 0 =
        some ("jout",
          JunctionInvocation.run
            { input_names := ["gone"], output_name := "jout",
              command := fun _ => .ok PipelineValues.void } inputs) ∧
      inputs.get? 0 = some PipelineValues.void) :=
  ⟨c1_missing_key_substitutes_void.1 Store.empty
      [{ input_name := some "missing", output_name := "out", commands := [] }] 0
      { input_name := some "missing", output_name := "out", commands := [] }
      "missing" rfl rfl rfl,
   c1_missing_key_substitutes_void.2 Store.empty
      [{ input_names := ["gone"], output_name := "jout",
         command := fun _ => .ok PipelineValues.void }] 0 0
      { input_names := ["gone"], output_name := "jout",
        command := fun _ => .ok PipelineValues.void }
      "gone" rfl rfl rfl⟩

theorem joinTasks_first_error :
    ∀ (tasks : List (String × Except ServerError PipelineValues)) (σ : Store)
      (i : Nat) (out : String) (e : ServerError),
      tasks.get? i = some (out, .error e) →
      (∀ j, j < i → ∃ p v, tasks.get? j = some p ∧ p.2 = Except.ok v) →
      joinTasks σ tasks = .error e := by
  intro tasks
  induction tasks with
  | nil => intro σ i out e h; simp at h
  | cons t rest ih =>
    intro σ i out e hget hok
    cases i with
    | zero =>
      have ht : t = (out, Except.error e) := by simpa using hget
      subst ht
      rfl
    | succ n =>
      obtain ⟨p, v, hp, hv⟩ := hok 0 (Nat.succ_pos n)
      have ht : t = p := by simpa using hp
      subst ht
      obtain ⟨o1, r1⟩ := t
      have hr1 : r1 = Except.ok v := hv
      subst hr1
      show joinTasks (Store.insert σ o1 v) rest = .error e
      refine ih _ n out e (by simpa using hget) ?_
      intro j hj
      obtain ⟨p', v', hp', hv'⟩ := hok (j + 1) (by omega)
      exact ⟨p', v', by simpa using hp', hv'⟩

theorem runStages_append (l1 l2 : List ParallelPipelines) (σ : Store) :
    runStages σ (l1 ++ l2) = (runStages σ l1).bind (fun σ' => runStages σ' l2) := by
  induction l1 generalizing σ with
  | nil => rfl
  | cons st rest ih =>
    show (match runStage σ st with
          | .ok σ' => runStages σ' (rest ++ l2)
          | .error e => (.error e : Except ServerError Store)) =
      (match runStage σ st with
          | .ok σ' => runStages σ' rest
          | .error e => (.error e : Except ServerError Store)).bind
        (fun σ' => runStages σ' l2)
    cases runStage σ st with
    | ok σ' => exact ih σ'
    | error e => rfl

/-- C2: if, in some stage of a graph run, a named pipeline's task fails while
every pipeline task joined before it succeeded, the whole run returns exactly
that pipeline's error — so no pipeline output (including those of the stage's
other, successfully completed pipelines) is observable in the run's result. -/
theorem c2_pipeline_failure_aborts_run
    (pre rest : List ParallelPipelines) (st : ParallelPipelines) (σ : Store)
    (i : Nat) (out : String) (e : ServerError)
    (hpre : runStages Store.empty pre = .ok σ)
    (hfail : (spawnPipelines σ st.pipelines).1.get? i = some (out, .error e))
    (hok : ∀ j, j < i → ∃ p v,
      (spawnPipelines σ st.pipelines).1.get? j = some p ∧ p.2 = Except.ok v) :
    ServerPipelineGraph.run { pipelines := pre ++ st :: rest } = .error e := by
  have hjoin : joinTasks (spawnPipelines σ st.pipelines).2
      (spawnPipelines σ st.pipelines).1 = .error e :=
    joinTasks_first_error _ _ i out e hfail hok
  have hstage : runStage σ st = .error e := by
    show (match joinTasks (spawnPipelines σ st.pipelines).2
              (spawnPipelines σ st.pipelines).1 with
          | .error e => (.error e : Except ServerError Store)
          | .ok σ2 => joinTasks (spawnJunctions σ2 st.junctions).2
              (spawnJunctions σ2 st.junctions).1) = .error e
    rw [hjoin]
  have hstages : runStages Store.empty (pre ++ st :: rest) = .error e := by
    rw [runStages_append, hpre, except_bind_ok]
    unfold runStages
    rw [hstage]
  unfold ServerPipelineGraph.run
  rw [hstages]

/-- Witness for C2 at a concrete input: a single stage with a succeeding
pipeline "a" and a failing pipeline "b" makes the whole run return the "b"
error. -/
theorem c2_pipeline_failure_aborts_run_witness :
    ServerPipelineGraph.run
      { pipelines := [
          { pipelines := [
              { input_name := none, output_name := "a",
                commands := [fun _ => .ok (.identifierList { identifiers := ["x"] })] },
              { input_name := none, output_name := "b",
                commands := [fun _ => .error (.StickyProblem
                  { layer := .BackendFailure, message := "stage boom" })] }],
            junctions := [] }] } =
      .error (.StickyProblem { layer := .BackendFailure, message := "stage boom" }) :=
  c2_pipeline_failure_aborts_run [] []
    { pipelines := [
        { input_name := none, output_name := "a",
          commands := [fun _ => .ok (.identifierList { identifiers := ["x"] })] },
        { input_name := none, output_name := "b",
          commands := [fun _ => .error (.StickyProblem
            { layer := .BackendFailure, message := "stage boom" })] }],
      junctions := [] }
    Store.empty 1 "b" (.StickyProblem { layer := .BackendFailure, message := "stage boom" })
    rfl rfl
    (fun j hj => by
      cases j with
      | zero => exact ⟨("a", .ok (.identifierList { identifiers := ["x"] })),
          .identifierList { identifiers := ["x"] }, rfl, rfl⟩
      | succ n => exact absurd hj (by omega))

theorem ingestByFileGroups_get? (plc : PathLineContents) (before after : Nat) :
    ∀ (l l' : List FlattenedResultsByFile),
      ingestByFileGroups plc before after l = some l' →
      ∀ i g, l.get? i = some g →
        ∃ g', l'.get? i = some g' ∧
          FlattenedResultsByFile.ingest_html_lines g plc before after = some g' := by
  intro l
  induction l with
  | nil => intro l' h i g hg; simp at hg
  | cons g0 rest ih =>
    intro l' h i g hg
    unfold ingestByFileGroups at h
    cases h0 : FlattenedResultsByFile.ingest_html_lines g0 plc before after with
    | none => rw [h0] at h; exact absurd h (by simp)
    | some g0' =>
      rw [h0] at h
      cases hr : ingestByFileGroups plc before after rest with
      | none => rw [hr] at h; exact absurd h (by simp)
      | some rest' =>
        rw [hr] at h
        have hl' : l' = g0' :: rest' := by simpa using h.symm
        subst hl'
        cases i with
        | zero =>
          have : g0 = g := by simpa using hg
          subst this
          exact ⟨g0', by simp, h0⟩
        | succ n =>
          obtain ⟨g', h1, h2⟩ := ih rest' hr n g (by simpa using hg)
          exact ⟨g', by simpa using h1, h2⟩

theorem ingestKindGroups_get? (plc : PathLineContents) (before after : Nat) :
    ∀ (l l' : List FlattenedKindGroupResults),
      ingestKindGroups plc before after l = some l' →
      ∀ i kg, l.get? i = some kg →
        ∃ kg', l'.get? i = some kg' ∧
          FlattenedKindGroupResults.ingest_html_lines kg plc before after = some kg' := by
  intro l
  induction l with
  | nil => intro l' h i kg hkg; simp at hkg
  | cons kg0 rest ih =>
    intro l' h i kg hkg
    unfold ingestKindGroups at h
    cases h0 : FlattenedKindGroupResults.ingest_html_lines kg0 plc before after with
    | none => rw [h0] at h; exact absurd h (by simp)
    | some kg0' =>
      rw [h0] at h
      cases hr : ingestKindGroups plc before after rest with
      | none => rw [hr] at h; exact absurd h (by simp)
      | some rest' =>
        rw [hr] at h
        have hl' : l' = kg0' :: rest' := by simpa using h.symm
        subst hl'
        cases i with
        | zero =>
          have : kg0 = kg := by simpa using hkg
          subst this
          exact ⟨kg0', by simp, h0⟩
        | succ n =>
          obtain ⟨kg', h1, h2⟩ := ih rest' hr n kg (by simpa using hkg)
          exact ⟨kg', by simpa using h1, h2⟩

theorem ingestPathKindGroups_get? (plc : PathLineContents) (before after : Nat) :
    ∀ (l l' : List FlattenedPathKindGroupResults),
      ingestPathKindGroups plc before after l = some l' →
      ∀ i pk, l.get? i = some pk →
        ∃ pk', l'.get? i = some pk' ∧
          FlattenedPathKindGroupResults.ingest_html_lines pk plc before after = some pk' := by
  intro l
  induction l with
  | nil => intro l' h i pk hpk; simp at hpk
  | cons pk0 rest ih =>
    intro l' h i pk hpk
    unfold ingestPathKindGroups at h
    cases h0 : FlattenedPathKindGroupResults.ingest_html_lines pk0 plc before after with
    | none => rw [h0] at h; exact absurd h (by simp)
    | some pk0' =>
      rw [h0] at h
      cases hr : ingestPathKindGroups plc before after rest with
      | none => rw [hr] at h; exact absurd h (by simp)
      | some rest' =>
        rw [hr] at h
        have hl' : l' = pk0' :: rest' := by simpa using h.symm
        subst hl'
        cases i with
        | zero =>
          have : pk0 = pk := by simpa using hpk
          subst this
          exact ⟨pk0', by simp, h0⟩
        | succ n =>
          obtain ⟨pk', h1, h2⟩ := ih rest' hr n pk (by simpa using hpk)
          exact ⟨pk', by simpa using h1, h2⟩

/-- C8: if a file is entirely absent from the content mapping, HTML-content
injection leaves all of that file's line spans unchanged — the per-file group
reappears at the same position in the output bundle exactly as it was, so
every span keeps its pre-injection `line_range`, `contents`, `context` and
`contextsym`. -/
theorem c8_absent_file_spans_untouched
    (b : FlattenedResultsBundle) (plc : PathLineContents) (before after : Nat)
    (out : FlattenedResultsBundle)
    (h : FlattenedResultsBundle.ingest_html_lines b plc before after = some out)
    (i j k : Nat) (pk : FlattenedPathKindGroupResults)
    (kg : FlattenedKindGroupResults) (g : FlattenedResultsByFile)
    (hpk : b.path_kind_results.get? i = some pk)
    (hkg : pk.kind_groups.get? j = some kg)
    (hg : kg.by_file.get? k = some g)
    (habsent : plc g.file = none) :
    ∃ pk' kg', out.path_kind_results.get? i = some pk' ∧
      pk'.kind_groups.get? j = some kg' ∧ kg'.by_file.get? k = some g := by
  unfold FlattenedResultsBundle.ingest_html_lines at h
  cases hp : ingestPathKindGroups plc before after b.path_kind_results with
  | none => rw [hp] at h; exact absurd h (by simp)
  | some pks =>
    rw [hp] at h
    have hout : out = { path_kind_results := pks, content_type := "text/html" } := by
      simpa using h.symm
    subst hout
    obtain ⟨pk', hpk', hipk⟩ := ingestPathKindGroups_get? plc before after _ pks hp i pk hpk
    unfold FlattenedPathKindGroupResults.ingest_html_lines at hipk
    cases hkgs : ingestKindGroups plc before after pk.kind_groups with
    | none => rw [hkgs] at hipk; exact absurd hipk (by simp)
    | some kgs =>
      rw [hkgs] at hipk
      have hpk2 : pk' = { pk with kind_groups := kgs } := by simpa using hipk.symm
      subst hpk2
      obtain ⟨kg', hkg', hikg⟩ := ingestKindGroups_get? plc before after _ kgs hkgs j kg hkg
      unfold FlattenedKindGroupResults.ingest_html_lines at hikg
      cases hbfs : ingestByFileGroups plc before after kg.by_file with
      | none => rw [hbfs] at hikg; exact absurd hikg (by simp)
      | some bfs =>
        rw [hbfs] at hikg
        have hkg2 : kg' = { kg with by_file := bfs } := by simpa using hikg.symm
        subst hkg2
        obtain ⟨g', hg', hig⟩ := ingestByFileGroups_get? plc before after _ bfs hbfs k g hg
        have hgg : g' = g := by
          unfold FlattenedResultsByFile.ingest_html_lines at hig
          rw [habsent] at hig
          simpa using hig.symm
        subst hgg
        exact ⟨{ pk with kind_groups := kgs }, { kg with by_file := bfs }, hpk', hkg', hg'⟩

/-- Witness for C8 at a concrete input: a bundle holding one file "b.rs" is
ingested against a mapping that lacks that file; the file group survives
unchanged at its position. -/
theorem c8_absent_file_spans_untouched_witness :
    ∃ pk' kg',
      ({ path_kind_results := [
           { path_kind := .Normal, file_names := ["b.rs"],
             kind_groups := [
               { kind := .Uses, pretty := "Uses", facets := [],
                 by_file := [
                   { file := "b.rs",
                     line_spans := [{ key_line := 3, line_range := (3, 4),
                                      contents := "plain", context := "ctx",
                                      contextsym := "sym" }] }] }] }],
         content_type := "text/html" } :
         FlattenedResultsBundle).path_kind_results.get? 0 = some pk' ∧
      pk'.kind_groups.get? 0 = some kg' ∧
      kg'.by_file.get? 0 = some
        { file := "b.rs",
          line_spans := [{ key_line := 3, line_range := (3, 4),
                           contents := "plain", context := "ctx",
                           contextsym := "sym" }] } :=
  c8_absent_file_spans_untouched
    { path_kind_results := [
        { path_kind := .Normal, file_names := ["b.rs"],
          kind_groups := [
            { kind := .Uses, pretty := "Uses", facets := [],
              by_file := [
                { file := "b.rs",
                  line_spans := [{ key_line := 3, line_range := (3, 4),
                                   contents := "plain", context := "ctx",
                                   contextsym := "sym" }] }] }] }],
      content_type := "text/plain" }
    (fun _ => none) 2 2
    { path_kind_results := [
        { path_kind := .Normal, file_names := ["b.rs"],
          kind_groups := [
            { kind := .Uses, pretty := "Uses", facets := [],
              by_file := [
                { file := "b.rs",
                  line_spans := [{ key_line := 3, line_range := (3, 4),
                                   contents := "plain", context := "ctx",
                                   contextsym := "sym" }] }] }] }],
      content_type := "text/html" }
    rfl 0 0 0 _ _ _ rfl rfl rfl rfl

/-- C4: evaluation of `ingest_html_lines` at a failing input.  For a file that
is present in the content mapping but whose lines are all absent from the
clamped range, zero lines are fetched and the source computes
`lines.len() - 1` on a `usize` of 0 — an underflowing subtraction (an
arithmetic panic), modelled as `none` — so setting `line_range` to
`(clamped_start, clamped_start + fetched_count - 1)` is not well defined at
`fetched_count = 0`.  With at least one fetched line the claimed formula does
hold: fetching exactly line 5 yields `line_range = (5, 5)` and that line's
content. -/
theorem c4_zero_fetched_lines_underflow :
    (FlattenedResultsByFile.ingest_html_lines
      { file := "a.rs",
        line_spans := [{ key_line := 5, line_range := (5, 5), contents := "x",
                         context := "", contextsym := "" }] }
      (fun f => if f = "a.rs" then some (fun _ => none) else none) 0 0 = none) ∧
    (FlattenedResultsByFile.ingest_html_lines
      { file := "a.rs",
        line_spans := [{ key_line := 5, line_range := (5, 5), contents := "x",
                         context := "", contextsym := "" }] }
      (fun f => if f = "a.rs"
                then some (fun n => if n = 5 then some "<b>html</b>" else none)
                else none) 0 0 =
      some { file := "a.rs",
             line_spans := [{ key_line := 5, line_range := (5, 5),
                              contents := "<b>html</b>", context := "",
                              contextsym := "" }] }) := by
  constructor
  · rfl
  · rfl

/-- Claim-side (C10) definition, following the claim's words: the
isolation-expanded line set of one span, `max(1, start − before)` through
`end + after`, the start never going below 1. -/
def claimedIsoLineSet (sp : FlattenedLineSpan) (before after : Nat) : Finset Nat :=
  Finset.Icc (Int.toNat (max 1 ((sp.line_range.1 : Int) - (before : Int))))
    (sp.line_range.2 + after)

/-- Claim-side (C10) definition: the union of the isolation-expanded line sets
of a list of spans. -/
def claimedSpanUnion (before after : Nat) (spans : List FlattenedLineSpan) : Finset Nat :=
  spans.foldl (fun acc sp => acc ∪ claimedIsoLineSet sp before after) ∅

/-- All per-file groups of a bundle, in traversal order. -/
def bundleFileGroups (b : FlattenedResultsBundle) : List FlattenedResultsByFile :=
  b.path_kind_results.flatMap fun pk => pk.kind_groups.flatMap fun kg => kg.by_file

/-- The spans belonging to one file across a list of per-file groups. -/
def spansOfFile (gs : List FlattenedResultsByFile) (file : String) :
    List FlattenedLineSpan :=
  (gs.filter fun g => g.file == file).flatMap FlattenedResultsByFile.line_spans

theorem expand_range_some (sp : FlattenedLineSpan) (before after : Nat) (r : Nat × Nat)
    (h : sp.expand_range_in_isolation before after = some r) :
    r = (Int.toNat (max 1 ((sp.line_range.1 : Int) - (before : Int))),
         sp.line_range.2 + after) := by
  unfold FlattenedLineSpan.expand_range_in_isolation u32Add at h
  by_cases hc : sp.line_range.2 + after ≤ U32MAX
  · rw [if_pos hc] at h
    simpa using h.symm
  · rw [if_neg hc] at h
    exact absurd h (by simp)

theorem foldl_union_init (f : FlattenedLineSpan → Finset Nat) :
    ∀ (l : List FlattenedLineSpan) (c : Finset Nat),
      l.foldl (fun acc sp => acc ∪ f sp) c =
        c ∪ l.foldl (fun acc sp => acc ∪ f sp) ∅ := by
  intro l
  induction l with
  | nil => intro c; simp
  | cons sp rest ih =>
    intro c
    show rest.foldl (fun acc sp => acc ∪ f sp) (c ∪ f sp) =
      c ∪ rest.foldl (fun acc sp => acc ∪ f sp) (∅ ∪ f sp)
    rw [ih (c ∪ f sp), ih (∅ ∪ f sp), Finset.empty_union, Finset.union_assoc]

theorem claimedSpanUnion_cons (before after : Nat) (sp : FlattenedLineSpan)
    (rest : List FlattenedLineSpan) :
    claimedSpanUnion before after (sp :: rest) =
      claimedIsoLineSet sp before after ∪ claimedSpanUnion before after rest := by
  show rest.foldl (fun acc sp => acc ∪ claimedIsoLineSet sp before after)
      (∅ ∪ claimedIsoLineSet sp before after) = _
  rw [foldl_union_init _ rest (∅ ∪ claimedIsoLineSet sp before after),
    Finset.empty_union]
  rfl

theorem claimedSpanUnion_append (before after : Nat)
    (l1 l2 : List FlattenedLineSpan) :
    claimedSpanUnion before after (l1 ++ l2) =
      claimedSpanUnion before after l1 ∪ claimedSpanUnion before after l2 := by
  unfold claimedSpanUnion
  rw [List.foldl_append,
    foldl_union_init _ l2 (List.foldl (fun acc sp => acc ∪ claimedIsoLineSet sp before after) ∅ l1)]

theorem accumulateSpanLines_union (before after : Nat) :
    ∀ (spans : List FlattenedLineSpan) (acc s : Finset Nat),
      accumulateSpanLines before after acc spans = some s →
      s = acc ∪ claimedSpanUnion before after spans := by
  intro spans
  induction spans with
  | nil =>
    intro acc s h
    have hs : acc = s := by simpa [accumulateSpanLines] using h
    subst hs
    simp [claimedSpanUnion]
  | cons sp rest ih =>
    intro acc s h
    unfold accumulateSpanLines at h
    cases hexp : sp.expand_range_in_isolation before after with
    | none => rw [hexp] at h; exact absurd h (by simp)
    | some r =>
      rw [hexp] at h
      have hr := expand_range_some sp before after r hexp
      have hIcc : Finset.Icc r.1 r.2 = claimedIsoLineSet sp before after := by
        rw [hr]; rfl
      have := ih (acc ∪ Finset.Icc r.1 r.2) s h
      rw [this, hIcc, claimedSpanUnion_cons, Finset.union_assoc]

theorem accumulate_file_group (before after : Nat) (g : FlattenedResultsByFile)
    (m0 m1 : LineSets)
    (h : FlattenedResultsByFile.accumulate_path_line_sets g m0 before after = some m1) :
    m1 = lineSetsInsert m0 g.file
      ((m0 g.file).getD ∅ ∪ claimedSpanUnion before after g.line_spans) := by
  unfold FlattenedResultsByFile.accumulate_path_line_sets at h
  cases hs : accumulateSpanLines before after ((m0 g.file).getD ∅) g.line_spans with
  | none => rw [hs] at h; exact absurd h (by simp)
  | some s =>
    rw [hs] at h
    have hm1 : m1 = lineSetsInsert m0 g.file s := by simpa using h.symm
    rw [hm1, accumulateSpanLines_union before after g.line_spans _ s hs]

theorem accumulateByFileGroups_lookup (before after : Nat) :
    ∀ (gs : List FlattenedResultsByFile) (m0 m : LineSets),
      accumulateByFileGroups before after m0 gs = some m →
      ∀ file, m file =
        if gs.any (fun g => g.file == file)
        then some ((m0 file).getD ∅ ∪
          claimedSpanUnion before after (spansOfFile gs file))
        else m0 file := by
  intro gs
  induction gs with
  | nil =>
    intro m0 m h file
    have hm : m0 = m := by simpa [accumulateByFileGroups] using h
    subst hm
    simp
  | cons g rest ih =>
    intro m0 m h file
    unfold accumulateByFileGroups at h
    cases hg : FlattenedResultsByFile.accumulate_path_line_sets g m0 before after with
    | none => rw [hg] at h; exact absurd h (by simp)
    | some m1 =>
      rw [hg] at h
      have hm1 := accumulate_file_group before after g m0 m1 hg
      have hrec := ih m1 m h file
      by_cases hf : g.file = file
      · subst hf
        have hm1f : m1 g.file = some ((m0 g.file).getD ∅ ∪
            claimedSpanUnion before after g.line_spans) := by
          rw [hm1]
          show (if g.file = g.file then _ else _) = _
          rw [if_pos rfl]
        have hspans : spansOfFile (g :: rest) g.file =
            g.line_spans ++ spansOfFile rest g.file := by
          simp [spansOfFile]
        have hcond : ((g :: rest).any fun g' => g'.file == g.file) = true := by
          simp
        rw [if_pos hcond, hspans, claimedSpanUnion_append]
        by_cases hany : rest.any (fun g' => g'.file == g.file) = true
        · rw [if_pos hany] at hrec
          rw [hrec, hm1f]
          show some _ = _
          rw [Option.getD_some, Finset.union_assoc]
        · rw [if_neg hany] at hrec
          have hany' : rest.any (fun g' => g'.file == g.file) = false := by
            simpa using hany
          have hnil : spansOfFile rest g.file = [] := by
            unfold spansOfFile
            rw [List.filter_eq_nil_iff.mpr]
            · rfl
            · exact List.any_eq_false.mp hany'
          rw [hrec, hm1f, hnil]
          show _ = some (_ ∪ (_ ∪ claimedSpanUnion before after []))
          rw [show claimedSpanUnion before after [] = ∅ from rfl, Finset.union_empty]
      · have hm1f : m1 file = m0 file := by
          rw [hm1]
          show (if file = g.file then _ else m0 file) = m0 file
          rw [if_neg (fun hh => hf hh.symm)]
        have hspans : spansOfFile (g :: rest) file = spansOfFile rest file := by
          simp [spansOfFile, List.filter_cons, hf]
        have hcond : ((g :: rest).any fun g' => g'.file == file) =
            (rest.any fun g' => g'.file == file) := by
          simp [List.any_cons, hf]
        rw [hrec, hm1f]
        by_cases hany : rest.any (fun g' => g'.file == file) = true
        · rw [if_pos hany, if_pos (by rw [hcond]; exact hany), hspans]
        · rw [if_neg hany, if_neg (by rw [hcond]; exact hany)]

theorem accumulateByFileGroups_append (before after : Nat) :
    ∀ (l1 l2 : List FlattenedResultsByFile) (m : LineSets),
      accumulateByFileGroups before after m (l1 ++ l2) =
        (accumulateByFileGroups before after m l1).bind
          (fun m' => accumulateByFileGroups before after m' l2) := by
  intro l1
  induction l1 with
  | nil => intro l2 m; rfl
  | cons g rest ih =>
    intro l2 m
    show (match FlattenedResultsByFile.accumulate_path_line_sets g m before after with
          | none => none
          | some m' => accumulateByFileGroups before after m' (rest ++ l2)) =
      ((match FlattenedResultsByFile.accumulate_path_line_sets g m before after with
        | none => none
        | some m' => accumulateByFileGroups before after m' rest) :
          Option LineSets).bind
        (fun m' => accumulateByFileGroups before after m' l2)
    cases FlattenedResultsByFile.accumulate_path_line_sets g m before after with
    | none => rfl
    | some m' => exact ih l2 m'

theorem accumulateKindGroups_as_files (before after : Nat) :
    ∀ (l : List FlattenedKindGroupResults) (m : LineSets),
      accumulateKindGroups before after m l =
        accumulateByFileGroups before after m (l.flatMap fun kg => kg.by_file) := by
  intro l
  induction l with
  | nil => intro m; rfl
  | cons kg rest ih =>
    intro m
    rw [List.cons_bind, accumulateByFileGroups_append]
    show (match accumulateByFileGroups before after m kg.by_file with
          | none => none
          | some m' => accumulateKindGroups before after m' rest) =
      (accumulateByFileGroups before after m kg.by_file).bind
        (fun m' => accumulateByFileGroups before after m' (rest.flatMap fun kg => kg.by_file))
    cases accumulateByFileGroups before after m kg.by_file with
    | none => rfl
    | some m' => exact ih m'

theorem accumulatePathKindGroups_as_files (before after : Nat) :
    ∀ (l : List FlattenedPathKindGroupResults) (m : LineSets),
      accumulatePathKindGroups before after m l =
        accumulateByFileGroups before after m
          (l.flatMap fun pk => pk.kind_groups.flatMap fun kg => kg.by_file) := by
  intro l
  induction l with
  | nil => intro m; rfl
  | cons pk rest ih =>
    intro m
    rw [List.cons_bind, accumulateByFileGroups_append]
    show (match accumulateKindGroups before after m pk.kind_groups with
          | none => none
          | some m' => accumulatePathKindGroups before after m' rest) =
      (accumulateByFileGroups before after m (pk.kind_groups.flatMap fun kg => kg.by_file)).bind
        (fun m' => accumulateByFileGroups before after m'
          (rest.flatMap fun pk => pk.kind_groups.flatMap fun kg => kg.by_file))
    rw [accumulateKindGroups_as_files]
    cases accumulateByFileGroups before after m (pk.kind_groups.flatMap fun kg => kg.by_file) with
    | none => rfl
    | some m' => exact ih m'

theorem mem_claimedIsoLineSet_one_le (sp : FlattenedLineSpan) (b a n : Nat)
    (h : n ∈ claimedIsoLineSet sp b a) : 1 ≤ n := by
  have hlow := (Finset.mem_Icc.mp h).1
  have hmax : (1 : Int) ≤ max 1 ((sp.line_range.1 : Int) - (b : Int)) := le_max_left _ _
  omega

theorem mem_claimedSpanUnion (b a : Nat) :
    ∀ (l : List FlattenedLineSpan) (n : Nat), n ∈ claimedSpanUnion b a l →
      ∃ sp, sp ∈ l ∧ n ∈ claimedIsoLineSet sp b a := by
  intro l
  induction l with
  | nil =>
    intro n h
    simp [claimedSpanUnion] at h
  | cons sp rest ih =>
    intro n h
    rw [claimedSpanUnion_cons] at h
    rcases Finset.mem_union.mp h with h1 | h2
    · exact ⟨sp, by simp, h1⟩
    · obtain ⟨sp', h3, h4⟩ := ih n h2
      exact ⟨sp', by simp [h3], h4⟩

/-- C10: for every successful `compute_path_line_sets` run, the resulting map
sends each file occurring in some per-file group exactly to the union, over
that file's line spans anywhere in the bundle, of the isolation-expanded line
range `max(1, start − before) .. end + after`; files occurring in no per-file
group are not keys at all (so no file carries lines of other files), and no
collected line number is below 1 (the start never underflows below 1). -/
theorem c10_compute_path_line_sets_union
    (b : FlattenedResultsBundle) (before after : Nat) (m : LineSets)
    (h : b.compute_path_line_sets before after = some m) :
    (∀ file, m file =
      if (bundleFileGroups b).any (fun g => g.file == file)
      then some (claimedSpanUnion before after (spansOfFile (bundleFileGroups b) file))
      else none) ∧
    (∀ file s, m file = some s → ∀ n ∈ s, 1 ≤ n) := by
  have h' : accumulateByFileGroups before after (fun _ => none) (bundleFileGroups b) =
      some m := by
    unfold bundleFileGroups
    rw [← accumulatePathKindGroups_as_files]
    exact h
  have hchar := accumulateByFileGroups_lookup before after (bundleFileGroups b)
    (fun _ => none) m h'
  have hmain : ∀ file, m file =
      if (bundleFileGroups b).any (fun g => g.file == file)
      then some (claimedSpanUnion before after (spansOfFile (bundleFileGroups b) file))
      else none := by
    intro file
    have hc := hchar file
    by_cases hany : (bundleFileGroups b).any (fun g => g.file == file) = true
    · rw [if_pos hany] at hc
      rw [if_pos hany, hc]
      show some (Finset.empty ∪ _) = _
      rw [show (Finset.empty : Finset Nat) = ∅ from rfl, Finset.empty_union]
    · rw [if_neg hany] at hc
      rw [if_neg hany, hc]
  refine ⟨hmain, ?_⟩
  intro file s hs n hn
  have hfile := hmain file
  rw [hs] at hfile
  by_cases hany : (bundleFileGroups b).any (fun g => g.file == file) = true
  · rw [if_pos hany] at hfile
    have hsu : s = claimedSpanUnion before after (spansOfFile (bundleFileGroups b) file) := by
      simpa using hfile
    subst hsu
    obtain ⟨sp, _, hsp⟩ := mem_claimedSpanUnion before after _ n hn
    exact mem_claimedIsoLineSet_one_le sp before after n hsp
  · rw [if_neg hany] at hfile
    exact absurd hfile (by simp)

/-- Witness for C10 at a concrete input: a bundle with one file "f.rs" and one
span (5, 6), expanded with before = 2 and after = 1. -/
theorem c10_compute_path_line_sets_union_witness :
    (lineSetsInsert (fun _ => none) "f.rs" (∅ ∪ Finset.Icc 3 7)) "f.rs" =
      if (bundleFileGroups
            { path_kind_results := [
                { path_kind := .Normal, file_names := ["f.rs"],
                  kind_groups := [
                    { kind := .Definitions, pretty := "Definitions", facets := [],
                      by_file := [
                        { file := "f.rs",
                          line_spans := [{ key_line := 5, line_range := (5, 6),
                                           contents := "c", context := "",
                                           contextsym := "" }] }] }] }],
              content_type := "text/plain" }).any (fun g => g.file == "f.rs")
      then some (claimedSpanUnion 2 1 (spansOfFile
            (bundleFileGroups
              { path_kind_results := [
                  { path_kind := .Normal, file_names := ["f.rs"],
                    kind_groups := [
                      { kind := .Definitions, pretty := "Definitions", facets := [],
                        by_file := [
                          { file := "f.rs",
                            line_spans := [{ key_line := 5, line_range := (5, 6),
                                             contents := "c", context := "",
                                             contextsym := "" }] }] }] }],
                content_type := "text/plain" }) "f.rs"))
      else none :=
  (c10_compute_path_line_sets_union
    { path_kind_results := [
        { path_kind := .Normal, file_names := ["f.rs"],
          kind_groups := [
            { kind := .Definitions, pretty := "Definitions", facets := [],
              by_file := [
                { file := "f.rs",
                  line_spans := [{ key_line := 5, line_range := (5, 6),
                                   contents := "c", context := "",
                                   contextsym := "" }] }] }] }],
      content_type := "text/plain" }
    2 1
    (lineSetsInsert (fun _ => none) "f.rs" (∅ ∪ Finset.Icc 3 7))
    rfl).1 "f.rs"

/-- The aspirational expanded start `max(1, start − before)` (the `i64`
computation of `expand_range_in_isolation`). -/
def aspirationalStart (sp : FlattenedLineSpan) (before : Nat) : Nat :=
  Int.toNat (max 1 ((sp.line_range.1 : Int) - (before : Int)))

/-- Claim-side (C5) definition, following the claim's words: the span's start
is clamped upward to one past the highest previously clamped end. -/
def claimClampStart (sp : FlattenedLineSpan) (before highest : Nat) : Nat :=
  if aspirationalStart sp before ≤ highest then highest + 1
  else aspirationalStart sp before

/-- Claim-side (C5) definition, following the claim's words: the span's end
`end + after` is clamped downward to the next span's original start minus
one. -/
def claimClampEnd (sp : FlattenedLineSpan) (after : Nat)
    (next_start? : Option Nat) : Nat :=
  match next_start? with
  | some ns => if sp.line_range.2 + after ≥ ns then ns - 1
               else sp.line_range.2 + after
  | none => sp.line_range.2 + after

/-- Claim-side (C5) definition: the per-span clamped ranges, the lower clamp
tracking the running maximum of the clamped ends seen so far, the upper clamp
reading the next span's original (not yet expanded) start. -/
def claimedClampedRanges (before after : Nat) :
    List FlattenedLineSpan → Nat → List (Nat × Nat)
  | [], _ => []
  | sp :: rest, maxPrev =>
    (claimClampStart sp before maxPrev,
     claimClampEnd sp after (rest.head?.map fun nxt => nxt.line_range.1)) ::
      claimedClampedRanges before after rest
        (max maxPrev (claimClampEnd sp after (rest.head?.map fun nxt => nxt.line_range.1)))

theorem filterMap_full_length {α β : Type} (f : α → Option β)
    (h : ∀ a, (f a).isSome = true) : ∀ l : List α, (l.filterMap f).length = l.length := by
  intro l
  induction l with
  | nil => rfl
  | cons a rest ih =>
    cases hf : f a with
    | none => exact absurd (h a) (by simp [hf])
    | some b => rw [List.filterMap_cons, hf]; simp [ih]

theorem fetchLines_full_length (fc : FileLines) (hfull : ∀ n, (fc n).isSome = true)
    (s e : Nat) : (fetchLines fc s e).length = e + 1 - s := by
  unfold fetchLines
  rw [filterMap_full_length fc hfull, List.length_range']

theorem ingestSpanStep_full_char (fc : FileLines) (before after highest : Nat)
    (sp : FlattenedLineSpan) (ns? : Option Nat) (sh : FlattenedLineSpan × Nat)
    (hfull : ∀ n, (fc n).isSome = true)
    (hstep : ingestSpanStep fc before after highest sp ns? = some sh) :
    sh.1.line_range = (claimClampStart sp before highest, claimClampEnd sp after ns?) ∧
    sh.2 = claimClampEnd sp after ns? ∧ highest < claimClampEnd sp after ns? := by
  unfold ingestSpanStep at hstep
  cases hexp : sp.expand_range_in_isolation before after with
  | none => rw [hexp] at hstep; exact absurd hstep (by simp)
  | some exp =>
    rw [hexp] at hstep
    dsimp only at hstep
    have hexp2 := expand_range_some sp before after exp hexp
    have hexp1 : exp.1 = aspirationalStart sp before := by rw [hexp2]; rfl
    have hexpe : exp.2 = sp.line_range.2 + after := by rw [hexp2]
    have hbound : sp.line_range.2 + after ≤ U32MAX := by
      unfold FlattenedLineSpan.expand_range_in_isolation u32Add at hexp
      by_cases hc : sp.line_range.2 + after ≤ U32MAX
      · exact hc
      · rw [if_neg hc] at hexp; exact absurd hexp (by simp)
    cases hS : (if exp.1 ≤ highest then u32Add highest 1 else some exp.1) with
    | none => rw [hS] at hstep; exact absurd hstep (by simp)
    | some ts =>
      rw [hS] at hstep
      dsimp only at hstep
      have hts : ts = claimClampStart sp before highest ∧ highest < ts := by
        by_cases hs1 : exp.1 ≤ highest
        · rw [if_pos hs1] at hS
          unfold u32Add at hS
          by_cases hov : highest + 1 ≤ U32MAX
          · rw [if_pos hov] at hS
            have : ts = highest + 1 := by simpa using hS.symm
            subst this
            rw [claimClampStart, if_pos (hexp1 ▸ hs1)]
            exact ⟨rfl, Nat.lt_succ_self highest⟩
          · rw [if_neg hov] at hS; exact absurd hS (by simp)
        · rw [if_neg hs1] at hS
          have : ts = exp.1 := by simpa using hS.symm
          subst this
          rw [claimClampStart, if_neg (hexp1 ▸ hs1)]
          exact ⟨hexp1, Nat.lt_of_not_le (hexp1 ▸ hs1)⟩
      cases hE : (match ns? with
                  | some ns => if exp.2 ≥ ns then u32Sub ns 1 else some exp.2
                  | none => some exp.2) with
      | none => rw [hE] at hstep; exact absurd hstep (by simp)
      | some te =>
        rw [hE] at hstep
        dsimp only at hstep
        have hte : te = claimClampEnd sp after ns? ∧ te ≤ sp.line_range.2 + after := by
          cases ns? with
          | none =>
            dsimp only at hE
            have : te = exp.2 := by simpa using hE.symm
            subst this
            exact ⟨by rw [claimClampEnd, hexpe], le_of_eq hexpe⟩
          | some ns =>
            dsimp only at hE
            by_cases hge : exp.2 ≥ ns
            · rw [if_pos hge] at hE
              unfold u32Sub at hE
              by_cases h1 : 1 ≤ ns
              · rw [if_pos h1] at hE
                have : te = ns - 1 := by simpa using hE.symm
                subst this
                constructor
                · rw [claimClampEnd, if_pos (hexpe ▸ hge)]
                · rw [hexpe] at hge; omega
              · rw [if_neg h1] at hE; exact absurd hE (by simp)
            · rw [if_neg hge] at hE
              have : te = exp.2 := by simpa using hE.symm
              subst this
              constructor
              · rw [claimClampEnd, if_neg (hexpe ▸ hge), hexpe]
              · exact le_of_eq hexpe
        rw [fetchLines_full_length fc hfull ts te] at hstep
        cases hsub : usizeSub (te + 1 - ts) 1 with
        | none => rw [hsub] at hstep; exact absurd hstep (by simp)
        | some l1 =>
          rw [hsub] at hstep
          dsimp only at hstep
          have htste : ts ≤ te ∧ l1 = te - ts := by
            unfold usizeSub at hsub
            by_cases h1 : 1 ≤ te + 1 - ts
            · rw [if_pos h1] at hsub
              have : l1 = te + 1 - ts - 1 := by simpa using hsub.symm
              omega
            · rw [if_neg h1] at hsub; exact absurd hsub (by simp)
          have hl1 : usizeAsU32 l1 = te - ts := by
            unfold usizeAsU32
            rw [htste.2]
            have : te - ts < 2 ^ 32 := by
              have := hte.2
              unfold U32MAX at hbound
              omega
            exact Nat.mod_eq_of_lt this
          rw [hl1] at hstep
          cases hadd : u32Add ts (te - ts) with
          | none => rw [hadd] at hstep; exact absurd hstep (by simp)
          | some newEnd =>
            rw [hadd] at hstep
            dsimp only at hstep
            have hne : newEnd = te := by
              unfold u32Add at hadd
              by_cases hc : ts + (te - ts) ≤ U32MAX
              · rw [if_pos hc] at hadd
                have : newEnd = ts + (te - ts) := by simpa using hadd.symm
                omega
              · rw [if_neg hc] at hadd; exact absurd hadd (by simp)
            have hsh : sh = ({ sp with
                line_range := (ts, newEnd),
                contents := String.intercalate "\n" (fetchLines fc ts te) }, te) := by
              simpa using hstep.symm
            subst hsh
            refine ⟨?_, hte.1, ?_⟩
            · show (ts, newEnd) = _
              rw [hne, hts.1, hte.1]
            · rw [← hte.1]
              exact Nat.lt_of_lt_of_le hts.2 (le_trans htste.1 (le_refl te))

theorem ingestSpans_ranges (fc : FileLines) (before after : Nat)
    (hfull : ∀ n, (fc n).isSome = true) :
    ∀ (spans : List FlattenedLineSpan) (highest : Nat) (out : List FlattenedLineSpan),
      ingestSpans fc before after highest spans = some out →
      out.map (fun sp => sp.line_range) =
        claimedClampedRanges before after spans highest := by
  intro spans
  induction spans with
  | nil =>
    intro highest out h
    have hout : out = [] := by simpa [ingestSpans] using h.symm
    subst hout
    rfl
  | cons sp rest ih =>
    intro highest out h
    unfold ingestSpans at h
    cases hstep : ingestSpanStep fc before after highest sp
        (rest.head?.map fun nxt => nxt.line_range.1) with
    | none => rw [hstep] at h; exact absurd h (by simp)
    | some sh =>
      rw [hstep] at h
      dsimp only at h
      cases hrest : ingestSpans fc before after sh.2 rest with
      | none => rw [hrest] at h; exact absurd h (by simp)
      | some rest' =>
        rw [hrest] at h
        have hout : out = sh.1 :: rest' := by simpa using h.symm
        subst hout
        obtain ⟨hr1, hr2, hlt⟩ :=
          ingestSpanStep_full_char fc before after highest sp _ sh hfull hstep
        have htail := ih sh.2 rest' hrest
        show sh.1.line_range :: rest'.map (fun sp => sp.line_range) =
          (claimClampStart sp before highest,
           claimClampEnd sp after (rest.head?.map fun nxt => nxt.line_range.1)) ::
            claimedClampedRanges before after rest
              (max highest
                (claimClampEnd sp after (rest.head?.map fun nxt => nxt.line_range.1)))
        rw [hr1, htail, hr2, Nat.max_eq_right (le_of_lt hlt)]

/-- C5: during HTML-content injection over a file whose content mapping has
every line (so that the clamps are fully visible in the output ranges), each
span's aspirational expanded range `(max(1, start − before), end + after)` is
clamped exactly as the claim states: the start is clamped upward to one past
the maximum clamped end over all previously processed spans of the file (the
running maximum agrees with the `highest_line` the code threads), and the end
is clamped downward to the next span's original, not yet expanded,
`line_range` start minus 1. -/
theorem c5_ingest_span_clamping (fc : FileLines) (before after : Nat)
    (spans out : List FlattenedLineSpan)
    (hfull : ∀ n, (fc n).isSome = true)
    (hrun : ingestSpans fc before after 0 spans = some out) :
    out.map (fun sp => sp.line_range) = claimedClampedRanges before after spans 0 :=
  ingestSpans_ranges fc before after hfull spans 0 out hrun

/-- Witness for C5 at the spec's concrete example: spans (10,10) and (11,11)
with before = after = 5 over fully available content; span 1 is clamped to
(5, 10) by span 2's original start, and span 2 is clamped up to start 11. -/
theorem c5_ingest_span_clamping_witness :
    ([{ key_line := 10, line_range := (5, 10),
        contents := "L\nL\nL\nL\nL\nL", context := "", contextsym := "" },
      { key_line := 11, line_range := (11, 16),
        contents := "L\nL\nL\nL\nL\nL", context := "", contextsym := "" }] :
        List FlattenedLineSpan).map (fun sp => sp.line_range) =
      claimedClampedRanges 5 5
        [{ key_line := 10, line_range := (10, 10), contents := "p",
           context := "", contextsym := "" },
         { key_line := 11, line_range := (11, 11), contents := "q",
           context := "", contextsym := "" }] 0 :=
  c5_ingest_span_clamping (fun _ => some "L") 5 5
    [{ key_line := 10, line_range := (10, 10), contents := "p",
       context := "", contextsym := "" },
     { key_line := 11, line_range := (11, 11), contents := "q",
       context := "", contextsym := "" }]
    [{ key_line := 10, line_range := (5, 10),
       contents := "L\nL\nL\nL\nL\nL", context := "", contextsym := "" },
     { key_line := 11, line_range := (11, 16),
       contents := "L\nL\nL\nL\nL\nL", context := "", contextsym := "" }]
    (fun _ => rfl) rfl
